import Mathlib

/-!
Verification of the Castles asset-generation script (`process_wizard.py`).

The script reads one SVG source file, derives two variants by literal
substring substitution (Python `str.replace` semantics: left-to-right,
non-overlapping), writes each variant to its own destination path and
prints one confirmation line per file; when the source file is missing it
prints an error message and returns without writing anything.

The embedding below models file contents as `List Char`, the filesystem as
a map from path strings to optional contents, and one run of the script as
the list of write/print events it performs, in order.
-/

/-! ### Python `str.replace`, `str.count` and the underlying scan

`replaceF old new n s` scans `s` left to right; at each position, if `old`
is a prefix of the remaining input, it emits `new` and skips past that
occurrence, otherwise it keeps the current character.  The fuel `n` is
always instantiated with `s.length`, which suffices since every step
consumes at least one character of `s` (for nonempty `old`). -/
def replaceF (old new : List Char) : Nat → List Char → List Char
  | _, [] => []
  | 0, s => s
  | n + 1, c :: rest =>
    if old.isPrefixOf (c :: rest) then
      new ++ replaceF old new n (List.drop (old.length - 1) rest)
    else
      c :: replaceF old new n rest

/-- Same scan as `replaceF`, counting the non-overlapping occurrences of
`old` that the scan matches (Python `str.count` for nonempty `old`). -/
def countF (old : List Char) : Nat → List Char → Nat
  | _, [] => 0
  | 0, _ => 0
  | n + 1, c :: rest =>
    if old.isPrefixOf (c :: rest) then
      countF old n (List.drop (old.length - 1) rest) + 1
    else
      countF old n rest

/-- Same scan as `replaceF`, returning the `old`-free segments of the input
that lie between the matched occurrences (Python `str.split` for nonempty
`old`). -/
def splitF (old : List Char) : Nat → List Char → List (List Char)
  | _, [] => [[]]
  | 0, s => [s]
  | n + 1, c :: rest =>
    if old.isPrefixOf (c :: rest) then
      [] :: splitF old n (List.drop (old.length - 1) rest)
    else
      match splitF old n rest with
      | [] => [[c]]
      | p :: ps => (c :: p) :: ps

/-- Joins segments with a separator: `joinWith sep [p, q, r] = p ++ sep ++ q
++ sep ++ r` (Python `sep.join`). -/
def joinWith (sep : List Char) : List (List Char) → List Char
  | [] => []
  | [p] => p
  | p :: q :: ps => p ++ sep ++ joinWith sep (q :: ps)

/-- Python `s.replace(old, new)` for the empty pattern `old`: a copy of
`new` is inserted before every character and at the end. -/
def interleave (new : List Char) : List Char → List Char
  | [] => new
  | c :: rest => new ++ c :: interleave new rest

/-- Python `s.replace(old, new)`: every non-overlapping occurrence of `old`
in `s`, found left to right, is replaced by `new`. -/
def pyReplace (s old new : List Char) : List Char :=
  if old = [] then interleave new s else replaceF old new s.length s

/-- Python `s.count(old)`: the number of non-overlapping occurrences of
`old` in `s`, counted left to right (`s.count of the empty pattern` is
`s.length + 1`). -/
def pyCount (s old : List Char) : Nat :=
  if old = [] then s.length + 1 else countF old s.length s

/-- Python `s.split(old)` for nonempty `old`: the `old`-free segments of
`s` between the non-overlapping occurrences of `old` found left to right.
(Python raises on an empty separator; the guard value `[s]` is never used
by the development.) -/
def pySplit (s old : List Char) : List (List Char) :=
  if old = [] then [s] else splitF old s.length s

/-! ### Filesystem and event-trace model -/

/-- A filesystem: each path either holds a text file or nothing. -/
abbrev FS := String → Option (List Char)

/-- Writing a file: creates or overwrites the file at `p` with content
`v`, leaving every other path unchanged. -/
def fsWrite (fs : FS) (p : String) (v : List Char) : FS :=
  fun q => if q = p then some v else fs q

/-- One observable step of the script: a file write or a console print. -/
inductive Event where
  | writeE : String → List Char → Event
  | printE : String → Event
  deriving DecidableEq

/-- Applies the write events of a trace to a filesystem, in order; print
events do not change the filesystem. -/
def applyEvents (fs : FS) : List Event → FS
  | [] => fs
  | Event.writeE p v :: es => applyEvents (fsWrite fs p v) es
  | Event.printE _ :: es => applyEvents fs es

/-- The console lines of a trace, in order. -/
def printsOf : List Event → List String
  | [] => []
  | Event.writeE _ _ :: es => printsOf es
  | Event.printE s :: es => s :: printsOf es

/-! ### The script's constants (from `process_wizard.py`) -/

/-- Source path constant of `process_wizard`. -/
def source_path : String :=
  "c:\\Users\\liaml\\Documents\\GitHub\\Castles\\src\\Assets\\Images\\Chess\\wMage.svg"

/-- White-wizard destination path constant of `process_wizard`. -/
def w_dest_path : String :=
  "c:\\Users\\liaml\\Documents\\GitHub\\Castles\\src\\Assets\\Images\\Chess\\wWizard.svg"

/-- Black-wizard destination path constant of `process_wizard`. -/
def b_dest_path : String :=
  "c:\\Users\\liaml\\Documents\\GitHub\\Castles\\src\\Assets\\Images\\Chess\\bWizard.svg"

/-- The target literal replaced in both variants. -/
def targetLit : List Char := ("fill=\"#000000\" stroke=\"none\"").data

/-- The replacement literal of the white variant. -/
def wReplLit : List Char :=
  ("fill=\"#ffffff\" stroke=\"#000000\" stroke-width=\"10\"").data

/-- The replacement literal of the black variant. -/
def bReplLit : List Char :=
  ("fill=\"#000000\" stroke=\"#ffffff\" stroke-width=\"10\"").data

/-- The message printed when the source file is missing. -/
def errorMsg : String := "Error: " ++ source_path ++ " not found."

/-- The confirmation line printed after writing the file at `p`. -/
def createdMsg (p : String) : String := "Created " ++ p

/-- The ordered trace of observable events of one run of `process_wizard`
on the filesystem `fs`: on a missing source, just the error print; on
success, the white-variant write and its confirmation, then the
black-variant write (derived from the original content) and its
confirmation. -/
def wizardTrace (fs : FS) : List Event :=
  match fs source_path with
  | none => [Event.printE errorMsg]
  | some content =>
    [Event.writeE w_dest_path (pyReplace content targetLit wReplLit),
     Event.printE (createdMsg w_dest_path),
     Event.writeE b_dest_path (pyReplace content targetLit bReplLit),
     Event.printE (createdMsg b_dest_path)]

/-- One run of `process_wizard`: the final filesystem and the printed
lines. -/
def process_wizard (fs : FS) : FS × List String :=
  (applyEvents fs (wizardTrace fs), printsOf (wizardTrace fs))

/-- The filesystem after one run of `process_wizard`. -/
def finalFS (fs : FS) : FS := (process_wizard fs).1

/-! ### Concrete inputs used by witnesses and counterexamples -/

/-- Sample source content with no occurrence of the target literal. -/
def sampleContent : List Char := ("hello world").data

/-- The concrete source content of the spec's scenario. -/
def sampleSvg : List Char :=
  ("fill=\"#000000\" stroke=\"none\" d=\"M0 0\"").data

/-- Expected white-variant output of the spec's scenario. -/
def sampleSvgW : List Char :=
  ("fill=\"#ffffff\" stroke=\"#000000\" stroke-width=\"10\" d=\"M0 0\"").data

/-- Expected black-variant output of the spec's scenario. -/
def sampleSvgB : List Char :=
  ("fill=\"#000000\" stroke=\"#ffffff\" stroke-width=\"10\" d=\"M0 0\"").data

/-- A filesystem holding `sampleContent` at the source path. -/
def fsSample : FS := fun q => if q = source_path then some sampleContent else none

/-- A filesystem holding the spec scenario's content at the source path. -/
def fsScenario : FS := fun q => if q = source_path then some sampleSvg else none

/-- The empty filesystem (source missing). -/
def fsNone : FS := fun _ => none

/-- Counterexample source text for the general substitution claim. -/
def exS : List Char := ("abb").data

/-- Counterexample target for the general substitution claim. -/
def exT : List Char := ("ab").data

/-- Counterexample replacement for the general substitution claim. -/
def exR : List Char := ("a").data

/-- Second counterexample source text (replacement already present). -/
def exS2 : List Char := ("acb").data

/-- Second counterexample replacement. -/
def exR2 : List Char := ("c").data

/-! ### Helper lemmas about the substitution scan -/

theorem infix_of_starts {l s : List Char} (h : l <+: s) : l <:+: s := by
  obtain ⟨t, ht⟩ := h
  exact ⟨[], t, by simpa using ht⟩

theorem tail_to_cons {l t : List Char} {a : Char} (h : l <:+: t) : l <:+: a :: t := by
  obtain ⟨u, v, huv⟩ := h
  exact ⟨a :: u, v, by simp [huv]⟩

theorem splitF_ne_nil (old : List Char) (n : Nat) (s : List Char) :
    splitF old n s ≠ [] := by
  cases n with
  | zero => cases s <;> simp [splitF]
  | succ n =>
    cases s with
    | nil => simp [splitF]
    | cons c rest =>
      simp only [splitF]
      split
      · simp
      · cases h : splitF old n rest <;> simp [h]

theorem joinWith_cons_cons (sep : List Char) (c : Char) (p : List Char)
    (ps : List (List Char)) :
    joinWith sep ((c :: p) :: ps) = c :: joinWith sep (p :: ps) := by
  cases ps <;> simp [joinWith]

theorem joinWith_nil_cons (sep p : List Char) (ps : List (List Char)) :
    joinWith sep ([] :: p :: ps) = sep ++ joinWith sep (p :: ps) := by
  simp [joinWith]

theorem replaceF_eq_joinWith (old new : List Char) :
    ∀ (n : Nat) (s : List Char), s.length ≤ n →
      replaceF old new n s = joinWith new (splitF old n s) := by
  intro n
  induction n with
  | zero =>
    intro s hs
    have hnil : s = [] := List.length_eq_zero.mp (Nat.le_zero.mp hs)
    subst hnil
    simp [replaceF, splitF, joinWith]
  | succ n ih =>
    intro s hs
    cases s with
    | nil => simp [replaceF, splitF, joinWith]
    | cons c rest =>
      have hr : rest.length ≤ n := by
        have hs' : rest.length + 1 ≤ n + 1 := by simpa using hs
        omega
      by_cases hb : old.isPrefixOf (c :: rest) = true
      · have hd : (List.drop (old.length - 1) rest).length ≤ n := by
          rw [List.length_drop]
          omega
        rcases hsp : splitF old n (List.drop (old.length - 1) rest)
          with _ | ⟨p, ps⟩
        · exact absurd hsp (splitF_ne_nil old n _)
        · simp only [replaceF, splitF, hb, if_true]
          rw [ih _ hd, hsp, joinWith_nil_cons]
      · rcases hsp : splitF old n rest with _ | ⟨p, ps⟩
        · exact absurd hsp (splitF_ne_nil old n rest)
        · simp only [replaceF, splitF, hb]
          rw [if_neg, if_neg, ih rest hr, hsp, joinWith_cons_cons]
          · simp [hb]
          · simp [hb]

theorem splitF_length (old : List Char) :
    ∀ (n : Nat) (s : List Char), s.length ≤ n →
      (splitF old n s).length = countF old n s + 1 := by
  intro n
  induction n with
  | zero =>
    intro s hs
    have hnil : s = [] := List.length_eq_zero.mp (Nat.le_zero.mp hs)
    subst hnil
    simp [splitF, countF]
  | succ n ih =>
    intro s hs
    cases s with
    | nil => simp [splitF, countF]
    | cons c rest =>
      have hr : rest.length ≤ n := by
        have hs' : rest.length + 1 ≤ n + 1 := by simpa using hs
        omega
      by_cases hb : old.isPrefixOf (c :: rest) = true
      · have hd : (List.drop (old.length - 1) rest).length ≤ n := by
          rw [List.length_drop]
          omega
        simp only [splitF, countF, hb, if_true]
        simp [ih _ hd]
      · rcases hsp : splitF old n rest with _ | ⟨p, ps⟩
        · exact absurd hsp (splitF_ne_nil old n rest)
        · simp only [splitF, countF, hb]
          rw [if_neg, if_neg, hsp]
          · have := ih rest hr
            rw [hsp] at this
            simpa using this
          · simp [hb]
          · simp [hb]

theorem splitF_head_starts (old : List Char) :
    ∀ (n : Nat) (s : List Char),
      ∃ p ps, splitF old n s = p :: ps ∧ p <+: s := by
  intro n
  induction n with
  | zero =>
    intro s
    cases s with
    | nil => exact ⟨[], [], by simp [splitF], List.prefix_rfl⟩
    | cons c rest => exact ⟨c :: rest, [], by simp [splitF], List.prefix_rfl⟩
  | succ n ih =>
    intro s
    cases s with
    | nil => exact ⟨[], [], by simp [splitF], List.prefix_rfl⟩
    | cons c rest =>
      by_cases hb : old.isPrefixOf (c :: rest) = true
      · exact ⟨[], splitF old n (List.drop (old.length - 1) rest),
          by simp [splitF, hb], List.nil_prefix⟩
      · obtain ⟨p, ps, hsp, hpre⟩ := ih rest
        exact ⟨c :: p, ps, by simp [splitF, hb, hsp],
          List.cons_prefix_cons.mpr ⟨rfl, hpre⟩⟩

theorem splitF_target_free (old : List Char) (hold : old ≠ []) :
    ∀ (n : Nat) (s : List Char), s.length ≤ n →
      ∀ p ∈ splitF old n s, ¬ old <:+: p := by
  intro n
  induction n with
  | zero =>
    intro s hs p hp hq
    have hnil : s = [] := List.length_eq_zero.mp (Nat.le_zero.mp hs)
    subst hnil
    simp [splitF] at hp
    subst hp
    exact hold (List.infix_nil.mp hq)
  | succ n ih =>
    intro s hs p hp hq
    cases s with
    | nil =>
      simp [splitF] at hp
      subst hp
      exact hold (List.infix_nil.mp hq)
    | cons c rest =>
      have hr : rest.length ≤ n := by
        have hs' : rest.length + 1 ≤ n + 1 := by simpa using hs
        omega
      by_cases hb : old.isPrefixOf (c :: rest) = true
      · have hd : (List.drop (old.length - 1) rest).length ≤ n := by
          rw [List.length_drop]
          omega
        simp [splitF, hb] at hp
        rcases hp with hp | hp
        · subst hp
          exact hold (List.infix_nil.mp hq)
        · exact ih _ hd p hp hq
      · obtain ⟨q, qs, hsp, hqpre⟩ := splitF_head_starts old n rest
        simp [splitF, hb, hsp] at hp
        rcases hp with hp | hp
        · subst hp
          rcases List.infix_cons_iff.mp hq with hpre | htail
          · have h1 : c :: q <+: c :: rest := List.cons_prefix_cons.mpr ⟨rfl, hqpre⟩
            have h2 : old <+: c :: rest := hpre.trans h1
            have h3 : old.isPrefixOf (c :: rest) = true :=
              List.isPrefixOf_iff_prefix.mpr h2
            exact hb h3
          · exact ih rest hr q (by rw [hsp]; exact List.mem_cons_self q qs) htail
        · exact ih rest hr p (by rw [hsp]; exact List.mem_cons_of_mem q hp) hq

theorem replaceF_id_of_absent (old new : List Char) :
    ∀ (n : Nat) (s : List Char), s.length ≤ n → ¬ old <:+: s →
      replaceF old new n s = s := by
  intro n
  induction n with
  | zero =>
    intro s hs _
    have hnil : s = [] := List.length_eq_zero.mp (Nat.le_zero.mp hs)
    subst hnil
    simp [replaceF]
  | succ n ih =>
    intro s hs habs
    cases s with
    | nil => simp [replaceF]
    | cons c rest =>
      have hr : rest.length ≤ n := by
        have hs' : rest.length + 1 ≤ n + 1 := by simpa using hs
        omega
      have hb : ¬ old.isPrefixOf (c :: rest) = true := by
        intro h
        exact habs (infix_of_starts (List.isPrefixOf_iff_prefix.mp h))
      have habs' : ¬ old <:+: rest := fun hi => habs (tail_to_cons hi)
      simp only [replaceF]
      rw [if_neg hb, ih rest hr habs']

/-! ### Helper lemmas about the script run -/

theorem sw_ne : source_path ≠ w_dest_path := by decide

theorem sb_ne : source_path ≠ b_dest_path := by decide

theorem wb_ne : w_dest_path ≠ b_dest_path := by decide

theorem targetLit_ne_nil : targetLit ≠ [] := by decide

theorem wizardTrace_none {fs : FS} (h : fs source_path = none) :
    wizardTrace fs = [Event.printE errorMsg] := by
  unfold wizardTrace
  rw [h]

theorem wizardTrace_some {fs : FS} {S : List Char} (h : fs source_path = some S) :
    wizardTrace fs =
      [Event.writeE w_dest_path (pyReplace S targetLit wReplLit),
       Event.printE (createdMsg w_dest_path),
       Event.writeE b_dest_path (pyReplace S targetLit bReplLit),
       Event.printE (createdMsg b_dest_path)] := by
  unfold wizardTrace
  rw [h]

theorem finalFS_none {fs : FS} (h : fs source_path = none) : finalFS fs = fs := by
  unfold finalFS process_wizard
  rw [wizardTrace_none h]
  rfl

theorem finalFS_some {fs : FS} {S : List Char} (h : fs source_path = some S)
    (q : String) :
    finalFS fs q =
      if q = b_dest_path then some (pyReplace S targetLit bReplLit)
      else if q = w_dest_path then some (pyReplace S targetLit wReplLit)
      else fs q := by
  unfold finalFS process_wizard
  rw [wizardTrace_some h]
  rfl

theorem prints_none {fs : FS} (h : fs source_path = none) :
    (process_wizard fs).2 = [errorMsg] := by
  unfold process_wizard
  rw [wizardTrace_none h]
  rfl

theorem prints_some {fs : FS} {S : List Char} (h : fs source_path = some S) :
    (process_wizard fs).2 = [createdMsg w_dest_path, createdMsg b_dest_path] := by
  unfold process_wizard
  rw [wizardTrace_some h]
  rfl

theorem fsSample_source : fsSample source_path = some sampleContent := by
  simp [fsSample]

theorem fsScenario_source : fsScenario source_path = some sampleSvg := by
  simp [fsScenario]

/-! ### Claims -/

/-- C1: For every source text `S`, one run of `process_wizard` leaves at the
white destination the content `S` with every non-overlapping, left-to-right
occurrence of the target literal replaced by the white replacement literal,
and at the black destination the original `S` (not the white variant's
output) with the same target literal replaced by the black replacement
literal, with standard whole-string literal replace semantics. -/
theorem C1_variant_outputs (fs : FS) (S : List Char)
    (h : fs source_path = some S) :
    finalFS fs w_dest_path = some (pyReplace S targetLit wReplLit) ∧
    finalFS fs b_dest_path = some (pyReplace S targetLit bReplLit) := by
  constructor
  · rw [finalFS_some h w_dest_path, if_neg wb_ne, if_pos rfl]
  · rw [finalFS_some h b_dest_path, if_pos rfl]

theorem C1_variant_outputs_witness :
    finalFS fsSample w_dest_path = some (pyReplace sampleContent targetLit wReplLit) ∧
    finalFS fsSample b_dest_path = some (pyReplace sampleContent targetLit bReplLit) :=
  C1_variant_outputs fsSample sampleContent fsSample_source

/-- C2: If the source path does not exist, the run aborts before producing
any output: no path of the filesystem is created or modified, and the single
printed line is the error message, which contains the missing path. -/
theorem C2_missing_source_aborts (fs : FS) (h : fs source_path = none) :
    (∀ q, finalFS fs q = fs q) ∧
    (process_wizard fs).2 = [errorMsg] ∧
    source_path.data <:+: errorMsg.data := by
  refine ⟨fun q => by rw [finalFS_none h], prints_none h, ?_⟩
  exact ⟨("Error: ").data, (" not found.").data,
    by simp [errorMsg, String.data_append]⟩

theorem C2_missing_source_aborts_witness :
    finalFS fsNone w_dest_path = fsNone w_dest_path ∧
    (process_wizard fsNone).2 = [errorMsg] ∧
    source_path.data <:+: errorMsg.data :=
  have h := C2_missing_source_aborts fsNone rfl
  ⟨h.1 w_dest_path, h.2.1, h.2.2⟩

/-- C3 (counterexample): the claim fails as stated.  With source `"abb"`,
target `"ab"` and replacement `"a"` (the replacement does not contain the
target), the output `"ab"` still contains the target; with source `"acb"`,
target `"ab"` and replacement `"c"`, the output's replacement count differs
from the source's target count. -/
theorem C3_counterexample :
    (¬ exT <:+: exR ∧ exT <:+: pyReplace exS exT exR) ∧
    (¬ exT <:+: exR2 ∧ pyCount (pyReplace exS2 exT exR2) exR2 ≠ pyCount exS2 exT) := by
  decide

/-- C3 (amended): For any source text `S` and variant spec (nonempty target
`T`, replacement `R`): the written content is the sequence of target-free
segments of `S` (split at the left-to-right, non-overlapping occurrences of
`T`) joined with `R`; the number of copies of `R` so inserted equals the
number of non-overlapping occurrences of `T` in `S`; and no segment contains
an occurrence of `T`. -/
theorem C3_replacement_structure (S T R : List Char) (h : T ≠ []) :
    pyReplace S T R = joinWith R (pySplit S T) ∧
    (pySplit S T).length = pyCount S T + 1 ∧
    ∀ p ∈ pySplit S T, ¬ T <:+: p := by
  unfold pyReplace pySplit pyCount
  rw [if_neg h, if_neg h, if_neg h]
  exact ⟨replaceF_eq_joinWith T R S.length S le_rfl,
    splitF_length T S.length S le_rfl,
    splitF_target_free T h S.length S le_rfl⟩

theorem C3_replacement_structure_witness :
    pyReplace exS exT exR = joinWith exR (pySplit exS exT) ∧
    (pySplit exS exT).length = pyCount exS exT + 1 ∧
    ¬ exT <:+: ([] : List Char) :=
  have h := C3_replacement_structure exS exT exR (by decide)
  ⟨h.1, h.2.1, h.2.2 [] (by decide)⟩

/-- C4: For the concrete source content of the spec's scenario, the
white-variant output and the black-variant output are exactly the expected
texts. -/
theorem C4_concrete_scenario :
    finalFS fsScenario w_dest_path = some sampleSvgW ∧
    finalFS fsScenario b_dest_path = some sampleSvgB := by
  decide

/-- C5: For every source text `S` in which the target literal does not
occur, both destination files are still written, each with content identical
to `S`, and the printed lines are the two normal confirmations (no error).
-/
theorem C5_zero_occurrence_passthrough (fs : FS) (S : List Char)
    (h1 : fs source_path = some S) (h2 : ¬ targetLit <:+: S) :
    finalFS fs w_dest_path = some S ∧
    finalFS fs b_dest_path = some S ∧
    (process_wizard fs).2 = [createdMsg w_dest_path, createdMsg b_dest_path] := by
  have hw : pyReplace S targetLit wReplLit = S := by
    unfold pyReplace
    rw [if_neg targetLit_ne_nil]
    exact replaceF_id_of_absent targetLit wReplLit S.length S le_rfl h2
  have hbk : pyReplace S targetLit bReplLit = S := by
    unfold pyReplace
    rw [if_neg targetLit_ne_nil]
    exact replaceF_id_of_absent targetLit bReplLit S.length S le_rfl h2
  refine ⟨?_, ?_, prints_some h1⟩
  · rw [finalFS_some h1 w_dest_path, if_neg wb_ne, if_pos rfl, hw]
  · rw [finalFS_some h1 b_dest_path, if_pos rfl, hbk]

theorem C5_zero_occurrence_passthrough_witness :
    finalFS fsSample w_dest_path = some sampleContent ∧
    finalFS fsSample b_dest_path = some sampleContent ∧
    (process_wizard fsSample).2 = [createdMsg w_dest_path, createdMsg b_dest_path] :=
  C5_zero_occurrence_passthrough fsSample sampleContent fsSample_source (by decide)

/-- C6: Running the script twice on the same (unchanged) source content and
specs produces byte-identical destination files on both runs. -/
theorem C6_idempotent_run (fs : FS) :
    finalFS (finalFS fs) w_dest_path = finalFS fs w_dest_path ∧
    finalFS (finalFS fs) b_dest_path = finalFS fs b_dest_path := by
  cases h : fs source_path with
  | none =>
    rw [finalFS_none h, finalFS_none h]
    exact ⟨rfl, rfl⟩
  | some S =>
    have h2 : finalFS fs source_path = some S := by
      rw [finalFS_some h source_path, if_neg sb_ne, if_neg sw_ne]
      exact h
    constructor
    · rw [finalFS_some h2 w_dest_path, finalFS_some h w_dest_path]
      simp [wb_ne]
    · rw [finalFS_some h2 b_dest_path, finalFS_some h b_dest_path]
      simp

/-- C7: When the source path cannot be opened, the single error kind is
reported via the error message, the run terminates without any write event,
and `process_wizard` returns normally (a value, not an exception), leaving
the filesystem unchanged. -/
theorem C7_source_missing_returns_normally (fs : FS)
    (h : fs source_path = none) :
    process_wizard fs = (fs, [errorMsg]) ∧
    ∀ p v, Event.writeE p v ∉ wizardTrace fs := by
  constructor
  · unfold process_wizard
    rw [wizardTrace_none h]
    rfl
  · intro p v hmem
    rw [wizardTrace_none h] at hmem
    simp at hmem

theorem C7_source_missing_returns_normally_witness :
    process_wizard fsNone = (fsNone, [errorMsg]) ∧
    Event.writeE w_dest_path [] ∉ wizardTrace fsNone :=
  have h := C7_source_missing_returns_normally fsNone rfl
  ⟨h.1, h.2 w_dest_path []⟩

/-- C8: On success, the run's trace is exactly: white write, its
confirmation print, black write, its confirmation print (so the white
variant is written before the black variant and exactly one confirmation
line is emitted per file), and each destination holds its transformed text.
-/
theorem C8_success_trace (fs : FS) (S : List Char)
    (h : fs source_path = some S) :
    wizardTrace fs =
      [Event.writeE w_dest_path (pyReplace S targetLit wReplLit),
       Event.printE (createdMsg w_dest_path),
       Event.writeE b_dest_path (pyReplace S targetLit bReplLit),
       Event.printE (createdMsg b_dest_path)] ∧
    finalFS fs w_dest_path = some (pyReplace S targetLit wReplLit) ∧
    finalFS fs b_dest_path = some (pyReplace S targetLit bReplLit) ∧
    (process_wizard fs).2 = [createdMsg w_dest_path, createdMsg b_dest_path] := by
  refine ⟨wizardTrace_some h, ?_, ?_, prints_some h⟩
  · rw [finalFS_some h w_dest_path, if_neg wb_ne, if_pos rfl]
  · rw [finalFS_some h b_dest_path, if_pos rfl]

theorem C8_success_trace_witness :
    wizardTrace fsSample =
      [Event.writeE w_dest_path (pyReplace sampleContent targetLit wReplLit),
       Event.printE (createdMsg w_dest_path),
       Event.writeE b_dest_path (pyReplace sampleContent targetLit bReplLit),
       Event.printE (createdMsg b_dest_path)] ∧
    finalFS fsSample w_dest_path = some (pyReplace sampleContent targetLit wReplLit) ∧
    finalFS fsSample b_dest_path = some (pyReplace sampleContent targetLit bReplLit) ∧
    (process_wizard fsSample).2 = [createdMsg w_dest_path, createdMsg b_dest_path] :=
  C8_success_trace fsSample sampleContent fsSample_source

/-- C9: The only filesystem modifications of a run are the writes to the two
destination paths: every other path (in particular the source path) is
unchanged, and no write event ever targets the source path. -/
theorem C9_frame (fs : FS) :
    (∀ q, q ≠ w_dest_path → q ≠ b_dest_path → finalFS fs q = fs q) ∧
    finalFS fs source_path = fs source_path ∧
    (∀ v, Event.writeE source_path v ∉ wizardTrace fs) := by
  cases h : fs source_path with
  | none =>
    refine ⟨fun q _ _ => by rw [finalFS_none h], by rw [finalFS_none h]; exact h, ?_⟩
    intro v hmem
    rw [wizardTrace_none h] at hmem
    simp at hmem
  | some S =>
    refine ⟨?_, ?_, ?_⟩
    · intro q hqw hqb
      rw [finalFS_some h q, if_neg hqb, if_neg hqw]
    · rw [finalFS_some h source_path, if_neg sb_ne, if_neg sw_ne]
      exact h
    · intro v hmem
      rw [wizardTrace_some h] at hmem
      simp [sw_ne, sb_ne] at hmem

theorem C9_frame_witness :
    finalFS fsSample source_path = fsSample source_path :=
  (C9_frame fsSample).1 source_path (by decide) (by decide)

/-- C10: There is no atomicity across the two writes: after any prefix of
the run's event trace that includes the white-variant write, the white
destination already holds its newly written transformed content — in
particular after the prefix where the black write has not yet happened, the
black destination is still untouched and no rollback of the white output
ever occurs. -/
theorem C10_no_rollback (fs : FS) (S : List Char)
    (h : fs source_path = some S) :
    (∀ k, 1 ≤ k →
      applyEvents fs ((wizardTrace fs).take k) w_dest_path =
        some (pyReplace S targetLit wReplLit)) ∧
    applyEvents fs ((wizardTrace fs).take 1) b_dest_path = fs b_dest_path := by
  rw [wizardTrace_some h]
  constructor
  · intro k hk
    rcases k with _ | _ | _ | _ | m
    · omega
    · simp [applyEvents, fsWrite]
    · simp [applyEvents, fsWrite]
    · simp [applyEvents, fsWrite, wb_ne]
    · simp [List.take_succ_cons, List.take_nil, applyEvents, fsWrite, wb_ne]
  · simp [applyEvents, fsWrite, Ne.symm wb_ne]

theorem C10_no_rollback_witness :
    applyEvents fsSample ((wizardTrace fsSample).take 1) w_dest_path =
      some (pyReplace sampleContent targetLit wReplLit) ∧
    applyEvents fsSample ((wizardTrace fsSample).take 1) b_dest_path =
      fsSample b_dest_path :=
  have h := C10_no_rollback fsSample sampleContent fsSample_source
  ⟨h.1 1 (by decide), h.2⟩
